import Mathlib

/-!
Shallow embedding of the ChessMirror WMD behavioral engine
(backend `src/analysis/behaviorInsight.js`, `src/analysis/moveQuality.js`,
`src/util.js`, `src/routes.js`; frontend `src/pages/Home.jsx`), together
with theorems about the segment classifier, the stat aggregator, the
move-quality oracle, the adaptive opponent and the nudge scheduler.

Numeric conventions: JavaScript numbers are modelled as `ℚ` where the code
manipulates fractional quantities (seconds, rates, random draws) and as
`ℕ`/`ℤ` where the code only ever holds integers (counters, milliseconds,
material scores).  `Math.round` on non-negative values is `⌊x + 1/2⌋`,
realised on integer fractions by `roundDiv`.
-/

namespace ChessMirror

/-- `roundDiv num den` is `Math.round(num / den)` for natural `num`, `den`
(`Math.round x = ⌊x + 1/2⌋` for non-negative `x`), computed with natural
division: `⌊num/den + 1/2⌋ = (2*num + den) / (2*den)`. -/
def roundDiv (num den : ℕ) : ℕ :=
  (2 * num + den) / (2 * den)

theorem roundDiv_le (num den : ℕ) (h : 0 < den) :
    (roundDiv num den : ℚ) ≤ (num : ℚ) / den + 1 / 2 := by
  have hden : (0 : ℚ) < (den : ℚ) := by exact_mod_cast h
  have hmul : roundDiv num den * (2 * den) ≤ 2 * num + den :=
    Nat.div_mul_le_self _ _
  have hq : (roundDiv num den : ℚ) * (2 * den) ≤ 2 * num + den := by
    exact_mod_cast hmul
  rw [div_add_div _ _ (ne_of_gt hden) (by norm_num), le_div_iff₀ (by positivity)]
  ring_nf
  ring_nf at hq
  linarith

theorem lt_roundDiv_add_one (num den : ℕ) (h : 0 < den) :
    (num : ℚ) / den + 1 / 2 < roundDiv num den + 1 := by
  have hden : (0 : ℚ) < (den : ℚ) := by exact_mod_cast h
  have hmul : 2 * num + den < (roundDiv num den + 1) * (2 * den) := by
    have h1 := Nat.div_add_mod (2 * num + den) (2 * den)
    have h2 := Nat.mod_lt (2 * num + den) (y := 2 * den) (by omega)
    unfold roundDiv
    calc 2 * num + den
        = 2 * den * ((2 * num + den) / (2 * den)) + (2 * num + den) % (2 * den) :=
          h1.symm
      _ < 2 * den * ((2 * num + den) / (2 * den)) + 2 * den := by omega
      _ = ((2 * num + den) / (2 * den) + 1) * (2 * den) := by ring
  have hq : ((2 * num + den : ℕ) : ℚ) < ((roundDiv num den + 1) * (2 * den) : ℕ) := by
    exact_mod_cast hmul
  push_cast at hq
  rw [div_add_div _ _ (ne_of_gt hden) (by norm_num), div_lt_iff₀ (by positivity)]
  ring_nf
  ring_nf at hq
  linarith

/-- The rounded quotient is within `1/2` of the exact quotient. -/
theorem abs_roundDiv_sub_le (num den : ℕ) (h : 0 < den) :
    |(roundDiv num den : ℚ) - (num : ℚ) / den| ≤ 1 / 2 := by
  have h1 := roundDiv_le num den h
  have h2 := lt_roundDiv_add_one num den h
  rw [abs_le]
  constructor <;> linarith

/-- `roundDiv` agrees with `Math.round` as `⌊num/den + 1/2⌋`. -/
theorem roundDiv_eq_floor (num den : ℕ) (h : 0 < den) :
    (roundDiv num den : ℤ) = ⌊(num : ℚ) / den + 1 / 2⌋ := by
  symm
  rw [Int.floor_eq_iff]
  constructor
  · push_cast
    have := lt_roundDiv_add_one num den h
    have h1 : ((2 * num + den : ℕ) : ℚ) ≥ (roundDiv num den : ℚ) * ((2 * den : ℕ) : ℚ) := by
      exact_mod_cast Nat.div_mul_le_self (2 * num + den) (2 * den)
    have hden : (0 : ℚ) < (den : ℚ) := by exact_mod_cast h
    push_cast at h1
    rw [div_add_div _ _ (ne_of_gt hden) (by norm_num), le_div_iff₀ (by positivity)]
    ring_nf
    ring_nf at h1
    linarith
  · push_cast
    exact lt_roundDiv_add_one num den h

/-! ### Segment classifier

`stats` as consumed by `getBehaviorInsight` (routes.js builds it with both a
`moves` field and a `moveCount` alias holding the same value, so a single
field suffices).  All four quantities are JavaScript numbers; `avgThinkTime`
is in seconds and `blunderRate` is a percentage. -/

structure InsightStats where
  moveCount : ℚ
  avgThinkTime : ℚ
  blunderRate : ℚ
  hoverCount : ℚ
deriving Repr, DecidableEq

/-- `hoversPerMove = moveCount > 0 ? hoverCount / moveCount : 0`
(identical in `behaviorInsight.js` and the `Home.jsx` copy). -/
def hoversPerMove (s : InsightStats) : ℚ :=
  if 0 < s.moveCount then s.hoverCount / s.moveCount else 0

namespace Backend

/-- Label computed by `getBehaviorInsight` in
`backend/src/analysis/behaviorInsight.js`.  The accompanying explanatory
`text` strings are presentation-only and omitted; rationals are always
finite so the `Number.isFinite` guards are vacuous here. -/
def getBehaviorInsightLabel (s : InsightStats) : String :=
  if s.moveCount < 6 then "Warming up"
  else if 35 ≤ s.blunderRate then "Unstable"
  else if s.avgThinkTime ≤ 22 / 10 ∧ 25 ≤ s.blunderRate then "Impulsive"
  else if 6 ≤ s.avgThinkTime ∧ s.blunderRate ≤ 20 then "Reflective"
  else if 4 ≤ s.avgThinkTime ∧ 4 ≤ hoversPerMove s then "Hesitant"
  else if 5 ≤ hoversPerMove s then "Explorer"
  else "Balanced"

end Backend

namespace Frontend

/-- Label computed by the local `getBehaviorInsight` copy in
`frontend/src/pages/Home.jsx`.  Unlike the backend version, the
`Unstable` rule is evaluated after the four style rules. -/
def getBehaviorInsightLabel (s : InsightStats) : String :=
  if s.moveCount < 6 then "Warming up"
  else if s.avgThinkTime ≤ 22 / 10 ∧ 25 ≤ s.blunderRate then "Impulsive"
  else if 6 ≤ s.avgThinkTime ∧ s.blunderRate ≤ 20 then "Reflective"
  else if 4 ≤ s.avgThinkTime ∧ 4 ≤ hoversPerMove s then "Hesitant"
  else if 5 ≤ hoversPerMove s then "Explorer"
  else if 35 ≤ s.blunderRate then "Unstable"
  else "Balanced"

end Frontend

/-- The classifier rules of the specification, as an ordered
`(predicate, label)` list, first match wins. -/
def classifierRules : List ((InsightStats → Bool) × String) :=
  [ (fun s => decide (s.moveCount < 6), "Warming up"),
    (fun s => decide (35 ≤ s.blunderRate), "Unstable"),
    (fun s => decide (s.avgThinkTime ≤ 22 / 10 ∧ 25 ≤ s.blunderRate), "Impulsive"),
    (fun s => decide (6 ≤ s.avgThinkTime ∧ s.blunderRate ≤ 20), "Reflective"),
    (fun s => decide (4 ≤ s.avgThinkTime ∧ 4 ≤ hoversPerMove s), "Hesitant"),
    (fun s => decide (5 ≤ hoversPerMove s), "Explorer") ]

/-- Evaluate an ordered rule list top-down; the first matching rule
determines the label, and `dflt` is returned when no rule matches. -/
def firstMatch (rules : List ((InsightStats → Bool) × String)) (dflt : String)
    (s : InsightStats) : String :=
  match rules with
  | [] => dflt
  | (p, label) :: rest => if p s then label else firstMatch rest dflt s

end ChessMirror

namespace ChessMirror

/-- C1: the backend classifier is exactly the priority-ordered first-match
evaluation of the seven rules; in particular `Unstable` preempts every
style label once `moveCount ≥ 6` and `blunderRatePct ≥ 35`. -/
theorem backend_classifier_priority_order (s : InsightStats) :
    Backend.getBehaviorInsightLabel s = firstMatch classifierRules "Balanced" s ∧
    (6 ≤ s.moveCount → 35 ≤ s.blunderRate →
      Backend.getBehaviorInsightLabel s = "Unstable") := by
  constructor
  · simp only [Backend.getBehaviorInsightLabel, firstMatch, classifierRules,
      decide_eq_true_eq]
  · intro h6 h35
    have hlt : ¬ s.moveCount < 6 := not_lt.mpr h6
    simp [Backend.getBehaviorInsightLabel, hlt, h35]

/-- Witness for C1: a session with `moveCount = 10`, `avgThinkTime = 7s`,
`blunderRate = 40%`, `hoverCount = 100` (so the Hesitant and Explorer
conditions also hold) is labelled `Unstable`. -/
theorem backend_classifier_priority_order_witness :
    Backend.getBehaviorInsightLabel ⟨10, 7, 40, 100⟩ = "Unstable" :=
  (backend_classifier_priority_order ⟨10, 7, 40, 100⟩).2 (by norm_num) (by norm_num)

/-- C10 counterexample: at `moveCount = 10`, `avgThinkTime = 2s`,
`blunderRate = 40%`, `hoverCount = 0` the backend classifier says
`Unstable` while the frontend copy says `Impulsive`. -/
theorem classifier_copies_counterexample :
    Backend.getBehaviorInsightLabel ⟨10, 2, 40, 0⟩ = "Unstable" ∧
    Frontend.getBehaviorInsightLabel ⟨10, 2, 40, 0⟩ = "Impulsive" ∧
    Backend.getBehaviorInsightLabel ⟨10, 2, 40, 0⟩ ≠
      Frontend.getBehaviorInsightLabel ⟨10, 2, 40, 0⟩ := by
  have hb : Backend.getBehaviorInsightLabel ⟨10, 2, 40, 0⟩ = "Unstable" := by
    norm_num [Backend.getBehaviorInsightLabel]
  have hf : Frontend.getBehaviorInsightLabel ⟨10, 2, 40, 0⟩ = "Impulsive" := by
    norm_num [Frontend.getBehaviorInsightLabel]
  exact ⟨hb, hf, by rw [hb, hf]; decide⟩

/-- C10 (amended): the backend classifier and the frontend copy agree on
every stats input except those with `moveCount ≥ 6`, `blunderRate ≥ 35`
and a matching Impulsive, Hesitant or Explorer condition; there the
backend reports `Unstable` (checked second) while the frontend reports
the style label (it checks `Unstable` only after the style rules). -/
theorem classifier_copies_divergence (s : InsightStats) :
    ((s.moveCount < 6 ∨ s.blunderRate < 35 ∨
        ¬((s.avgThinkTime ≤ 22 / 10 ∧ 25 ≤ s.blunderRate) ∨
          (4 ≤ s.avgThinkTime ∧ 4 ≤ hoversPerMove s) ∨
          5 ≤ hoversPerMove s)) →
      Backend.getBehaviorInsightLabel s = Frontend.getBehaviorInsightLabel s) ∧
    (6 ≤ s.moveCount → 35 ≤ s.blunderRate →
      ((s.avgThinkTime ≤ 22 / 10 ∧ 25 ≤ s.blunderRate) ∨
        (4 ≤ s.avgThinkTime ∧ 4 ≤ hoversPerMove s) ∨
        5 ≤ hoversPerMove s) →
      Backend.getBehaviorInsightLabel s = "Unstable" ∧
        Frontend.getBehaviorInsightLabel s ≠ "Unstable") := by
  constructor
  · rintro (h | h | h)
    · simp [Backend.getBehaviorInsightLabel, Frontend.getBehaviorInsightLabel, h]
    · have hb : ¬ 35 ≤ s.blunderRate := not_le.mpr h
      simp [Backend.getBehaviorInsightLabel, Frontend.getBehaviorInsightLabel, hb]
    · have h1 : ¬ (s.avgThinkTime ≤ 22 / 10 ∧ 25 ≤ s.blunderRate) :=
        fun hi => h (Or.inl hi)
      have h2 : ¬ (4 ≤ s.avgThinkTime ∧ 4 ≤ hoversPerMove s) :=
        fun hi => h (Or.inr (Or.inl hi))
      have h3 : ¬ 5 ≤ hoversPerMove s := fun hi => h (Or.inr (Or.inr hi))
      by_cases hb : 35 ≤ s.blunderRate
      · have hrefl : ¬ (6 ≤ s.avgThinkTime ∧ s.blunderRate ≤ 20) := by
          rintro ⟨-, h20⟩; linarith
        simp [Backend.getBehaviorInsightLabel, Frontend.getBehaviorInsightLabel,
          hb, hrefl, h1, h2, h3]
      · simp [Backend.getBehaviorInsightLabel, Frontend.getBehaviorInsightLabel, hb]
  · intro h6 h35 hsty
    have hlt : ¬ s.moveCount < 6 := not_lt.mpr h6
    have hrefl : ¬ (6 ≤ s.avgThinkTime ∧ s.blunderRate ≤ 20) := by
      rintro ⟨-, h20⟩; linarith
    refine ⟨by simp [Backend.getBehaviorInsightLabel, hlt, h35], ?_⟩
    unfold Frontend.getBehaviorInsightLabel
    rcases hsty with h | h | h
    · simp [hlt, h]
    · by_cases hi : s.avgThinkTime ≤ 22 / 10 ∧ 25 ≤ s.blunderRate
      · simp [hlt, hi]
      · simp [hlt, hi, hrefl, h]
    · by_cases hi : s.avgThinkTime ≤ 22 / 10 ∧ 25 ≤ s.blunderRate
      · simp [hlt, hi]
      · by_cases hh : 4 ≤ s.avgThinkTime ∧ 4 ≤ hoversPerMove s
        · simp [hlt, hi, hrefl, hh]
        · simp [hlt, hi, hrefl, hh, h]

/-- Witness for C10 (amended): on `moveCount = 10`, `avgThinkTime = 7s`,
`blunderRate = 10%`, `hoverCount = 0` (outside the divergence region), the
two classifiers agree. -/
theorem classifier_copies_divergence_witness :
    Backend.getBehaviorInsightLabel ⟨10, 7, 10, 0⟩ =
      Frontend.getBehaviorInsightLabel ⟨10, 7, 10, 0⟩ :=
  (classifier_copies_divergence ⟨10, 7, 10, 0⟩).1 (by norm_num [hoversPerMove])

/-! ### Move-quality oracle (`backend/src/analysis/moveQuality.js`)

A chess.js verbose move record, restricted to the two fields the oracle
reads: `to` (destination square name) and `flags` (chess.js flag string,
where `'c'` marks a standard capture and `'e'` an en-passant capture). -/

structure VerboseMove where
  toSquare : String
  flags : List Char
deriving Repr, DecidableEq

/-- A chess.js move is a capture when its flag string contains `'c'`
(standard capture) or `'e'` (en-passant capture) — the same test the
frontend `getTacticalHint` uses to collect captures. -/
def VerboseMove.isCapture (m : VerboseMove) : Bool :=
  m.flags.contains 'c' || m.flags.contains 'e'

/-- `labelMoveQuality(chess, lastMove)` from `moveQuality.js`.  The first
argument stands for `chess.moves({ verbose: true })`: the legal moves of
the position after `lastMove`, where the turn has passed to the opponent. -/
def labelMoveQuality (legalMoves : List VerboseMove)
    (lastMove : Option VerboseMove) : String :=
  match lastMove with
  | none => "good"
  | some lm =>
    if legalMoves.any (fun m => m.toSquare == lm.toSquare && m.flags.contains 'c')
    then "blunder" else "good"

/-- C4: provided no en-passant reply targets the destination square of the
played move (true in chess: the en-passant destination square is empty
while the played move's destination is occupied by the moved piece), the
oracle answers `"blunder"` exactly when some opponent legal move is a
capture landing on the played move's destination square, and `"good"`
otherwise. -/
theorem labelMoveQuality_blunder_iff (legalMoves : List VerboseMove)
    (lm : VerboseMove)
    (hep : ∀ m ∈ legalMoves, m.flags.contains 'e' = true → m.toSquare ≠ lm.toSquare) :
    (labelMoveQuality legalMoves (some lm) = "blunder" ↔
      ∃ m ∈ legalMoves, m.isCapture = true ∧ m.toSquare = lm.toSquare) ∧
    (labelMoveQuality legalMoves (some lm) = "good" ↔
      ¬ ∃ m ∈ legalMoves, m.isCapture = true ∧ m.toSquare = lm.toSquare) := by
  have key : (legalMoves.any (fun m => m.toSquare == lm.toSquare && m.flags.contains 'c')) = true ↔
      ∃ m ∈ legalMoves, m.isCapture = true ∧ m.toSquare = lm.toSquare := by
    rw [List.any_eq_true]
    constructor
    · rintro ⟨m, hm, hc⟩
      rw [Bool.and_eq_true, beq_iff_eq] at hc
      exact ⟨m, hm,
        by simp only [VerboseMove.isCapture, Bool.or_eq_true]; exact Or.inl hc.2, hc.1⟩
    · rintro ⟨m, hm, hcap, hto⟩
      refine ⟨m, hm, ?_⟩
      rw [Bool.and_eq_true, beq_iff_eq]
      refine ⟨hto, ?_⟩
      rcases Bool.or_eq_true _ _ |>.mp hcap with hc | he
      · exact hc
      · exact absurd hto (hep m hm he)
  constructor
  · rw [← key]
    unfold labelMoveQuality
    rcases Bool.eq_false_or_eq_true
        (legalMoves.any (fun m => m.toSquare == lm.toSquare && m.flags.contains 'c')) with h | h <;>
      simp [h]
  · rw [← key]
    unfold labelMoveQuality
    rcases Bool.eq_false_or_eq_true
        (legalMoves.any (fun m => m.toSquare == lm.toSquare && m.flags.contains 'c')) with h | h <;>
      simp [h]

/-- Witness for C4: with a hanging queen on `d5` (the opponent has the
captures `exd5` and `Nxd5` plus a quiet move), the oracle answers
`"blunder"`; the en-passant hypothesis holds as no reply carries flag
`'e'`. -/
theorem labelMoveQuality_blunder_iff_witness :
    labelMoveQuality
      [⟨"d5", ['c']⟩, ⟨"d5", ['c']⟩, ⟨"a3", ['n']⟩] (some ⟨"d5", ['n']⟩) = "blunder" := by
  have h := labelMoveQuality_blunder_iff
    [⟨"d5", ['c']⟩, ⟨"d5", ['c']⟩, ⟨"a3", ['n']⟩] ⟨"d5", ['n']⟩ (by decide)
  exact h.1.mpr ⟨⟨"d5", ['c']⟩, by decide, by decide, rfl⟩


/-! ### User profile and `computeSegment` (`backend/src/util.js`) -/

/-- A `Profile` row (Prisma defaults: all counters `0`, segment
`"unknown"`).  `avgThinkTimeMs` is stored as an integer because every
update rounds (`Math.round`). -/
structure Profile where
  moveCount : ℕ
  blunderCount : ℕ
  avgThinkTimeMs : ℕ
  hintCount : ℕ
  segment : String
deriving Repr, DecidableEq

/-- The zeroed profile Prisma creates on `profile.createMany({ userId })`. -/
def zeroProfile : Profile :=
  { moveCount := 0, blunderCount := 0, avgThinkTimeMs := 0, hintCount := 0,
    segment := "unknown" }

/-- `computeSegment(profile)` from `backend/src/util.js`. -/
def computeSegment (p : Profile) : String :=
  let blunderRate : ℚ :=
    if 0 < p.moveCount then (p.blunderCount : ℚ) / p.moveCount else 0
  if 5 ≤ p.hintCount then "learner"
  else if p.avgThinkTimeMs ≤ 2500 ∧ 15 / 100 ≤ blunderRate then "impulsive"
  else if 7000 ≤ p.avgThinkTimeMs ∧ blunderRate ≤ 8 / 100 then "careful"
  else "unknown"

/-! ### The `/game/move` and `/track/event` handlers (`backend/src/routes.js`)

The Prisma store is modelled by `ServerState`: the set of existing `User`
rows (by uid), the `Profile` rows keyed by uid, and the `Move` rows.  The
`Game` upsert, `Session` and `Event` rows are not modelled: no claim reads
them.  chess.js legality checking and `labelMoveQuality` run on the
submitted FEN/UCI, which the state machine does not re-derive; a request
therefore carries `isLegal` (did `chess.move(...)` parse?) and
`oracleQuality` (the `labelMoveQuality` result for the submitted
position, used only when the move is legal and human). -/

structure MoveRequest where
  uid : ℕ
  gameId : ℕ
  ply : ℕ
  isBot : Bool
  thinkTimeMs : ℕ
  hasRequiredFields : Bool
  isLegal : Bool
  oracleQuality : String
deriving Repr, DecidableEq

/-- A stored `Move` row (fields read back by this core). -/
structure StoredMove where
  gameId : ℕ
  ply : ℕ
  thinkTimeMs : ℕ
  quality : Option String
  isBot : Bool
deriving Repr, DecidableEq

inductive MoveResponse where
  /-- `res.status(code).json({ error })` -/
  | error (status : ℕ) (msg : String)
  /-- `res.json({ ok: true, quality, deduped?, isBot })`; an absent
  `deduped` field is `false`. -/
  | success (quality : Option String) (deduped : Bool)
deriving Repr, DecidableEq

structure ServerState where
  users : List ℕ
  profiles : List (ℕ × Profile)
  moves : List StoredMove
deriving Repr, DecidableEq

/-- `prisma.profile.findUnique({ where: { userId } })`. -/
def profileLookup (st : ServerState) (uid : ℕ) : Option Profile :=
  (st.profiles.find? (fun e => e.1 == uid)).map (fun e => e.2)

/-- Write the profile row for `uid` (insert if absent, else replace). -/
def setProfile (ps : List (ℕ × Profile)) (uid : ℕ) (p : Profile) :
    List (ℕ × Profile) :=
  if ps.any (fun e => e.1 == uid) then
    ps.map (fun e => if e.1 == uid then (uid, p) else e)
  else (uid, p) :: ps

/-- The stat update of a human move (routes.js lines 244-253):
`moveCount++`, `blunderCount += quality === "blunder" ? 1 : 0`,
`avgThinkTimeMs = Math.round((prevAvg * prevMoveCount + thinkTimeMs) /
moveCount)`. -/
def updateProfile (prev : Profile) (quality : Option String) (think : ℕ) :
    Profile :=
  { prev with
    moveCount := prev.moveCount + 1,
    blunderCount := prev.blunderCount + (if quality == some "blunder" then 1 else 0),
    avgThinkTimeMs :=
      roundDiv (prev.avgThinkTimeMs * prev.moveCount + think) (prev.moveCount + 1) }

/-- The two consecutive `prisma.profile.update` calls of a human move:
first the stat fields, then `segment = computeSegment(updated)`. -/
def aggregateMove (prev : Profile) (quality : Option String) (think : ℕ) :
    Profile :=
  let updated := updateProfile prev quality think
  { updated with segment := computeSegment updated }

/-- The `Move` row inserted by `prisma.move.create` for request `r`
(`thinkTimeMs` clamped to `[0, 600000]`; `quality` is `null` for bot
moves and the oracle label otherwise). -/
def insertMove (st : ServerState) (r : MoveRequest) : ServerState :=
  { st with moves :=
      { gameId := r.gameId, ply := r.ply,
        thinkTimeMs := min r.thinkTimeMs 600000,
        quality := if r.isBot then none else some r.oracleQuality,
        isBot := r.isBot } :: st.moves }

/-- `router.post("/game/move")`.  The duplicate-`(gameId, ply)` check
models catching Prisma error `P2002` on `move.create` (the spec's
check-then-conditional-insert reading of the same behaviour).  In the
human branch the previous profile is read after the move insert, which
leaves profiles untouched, so it is looked up in `st` directly. -/
def gameMove (st : ServerState) (r : MoveRequest) : MoveResponse × ServerState :=
  if !r.hasRequiredFields then (.error 400 "Missing fields", st)
  else if !(st.users.contains r.uid) then (.error 404 "Unknown uid", st)
  else if !r.isLegal then (.error 400 "Illegal/invalid move", st)
  else if st.moves.any (fun m => m.gameId == r.gameId && m.ply == r.ply) then
    (.success (if r.isBot then none else some "ok") true, st)
  else if r.isBot then (.success none false, insertMove st r)
  else
    (.success (some r.oracleQuality) false,
      { (insertMove st r) with profiles :=
          (setProfile st.profiles r.uid
            (aggregateMove ((profileLookup st r.uid).getD zeroProfile)
              (some r.oracleQuality) r.thinkTimeMs)) })

/-- `getOrCreateUser` as it affects the modelled state: create the user
row and its zeroed profile row when missing (`createMany` with
`skipDuplicates`). -/
def getOrCreateUserState (st : ServerState) (uid : ℕ) : ServerState :=
  { st with
    users := if st.users.contains uid then st.users else uid :: st.users,
    profiles :=
      if st.profiles.any (fun e => e.1 == uid) then st.profiles
      else (uid, zeroProfile) :: st.profiles }

/-- The `hint_used` branch of `router.post("/track/event")`:
`hintCount = hintCount + 1`, then `segment = computeSegment(updated)`. -/
def trackHintUsed (st : ServerState) (uid : ℕ) : ServerState :=
  let st1 := getOrCreateUserState st uid
  let profile := (profileLookup st1 uid).getD zeroProfile
  let updated := { profile with hintCount := profile.hintCount + 1 }
  let final := { updated with segment := computeSegment updated }
  { st1 with profiles := setProfile st1.profiles uid final }

/-- A profile-mutating request reaching the backend. -/
inductive ServerOp where
  | move (r : MoveRequest)
  | hintUsed (uid : ℕ)
deriving Repr

def serverStep (st : ServerState) (op : ServerOp) : ServerState :=
  match op with
  | .move r => (gameMove st r).2
  | .hintUsed uid => trackHintUsed st uid

/-- `(moveCount, avgThinkTimeMs)` after feeding a sequence of human
think times through the incremental-mean recurrence of `gameMove`. -/
def runningAvg (ts : List ℕ) : ℕ × ℕ :=
  ts.foldl
    (fun acc t => (acc.1 + 1, roundDiv (acc.2 * acc.1 + t) (acc.1 + 1)))
    (0, 0)


/-! ### Lemmas about the profile store -/

theorem find?_map_replace (ps : List (ℕ × Profile)) (uid : ℕ) (p : Profile)
    (h : ps.any (fun e => e.1 == uid) = true) :
    (ps.map (fun e => if e.1 == uid then (uid, p) else e)).find?
      (fun e => e.1 == uid) = some (uid, p) := by
  induction ps with
  | nil => simp at h
  | cons a t ih =>
    by_cases ha : (a.1 == uid) = true
    · rw [List.map_cons, if_pos ha, List.find?_cons]
      simp
    · have ha' : (a.1 == uid) = false := by simpa using ha
      have ht : t.any (fun e => e.1 == uid) = true := by
        simp only [List.any_cons, ha', Bool.false_or] at h
        exact h
      rw [List.map_cons, if_neg ha, List.find?_cons, ha']
      exact ih ht

theorem find?_setProfile (ps : List (ℕ × Profile)) (uid : ℕ) (p : Profile) :
    (setProfile ps uid p).find? (fun e => e.1 == uid) = some (uid, p) := by
  unfold setProfile
  split_ifs with h
  · exact find?_map_replace ps uid p h
  · exact List.find?_cons_of_pos _ (by exact beq_self_eq_true uid)

/-- After `setProfile`, looking the key up returns the written profile. -/
theorem profileLookup_set_self (st : ServerState) (uid : ℕ) (p : Profile) :
    profileLookup { st with profiles := setProfile st.profiles uid p } uid = some p := by
  unfold profileLookup
  rw [show ({ st with profiles := setProfile st.profiles uid p } : ServerState).profiles
      = setProfile st.profiles uid p from rfl]
  rw [find?_setProfile]
  rfl

/-- Every entry of `setProfile ps uid p` is the written pair or an old entry. -/
theorem mem_setProfile {ps : List (ℕ × Profile)} {uid : ℕ} {p : Profile}
    {e : ℕ × Profile} (he : e ∈ setProfile ps uid p) :
    e = (uid, p) ∨ e ∈ ps := by
  unfold setProfile at he
  split_ifs at he with h
  · obtain ⟨a, ha, hfa⟩ := List.mem_map.mp he
    by_cases hb : (a.1 == uid) = true
    · left; rw [← hfa]; simp [hb]
    · right; rw [← hfa]; simp only [hb, if_false]; exact ha
  · rcases List.mem_cons.mp he with h1 | h1
    · left; exact h1
    · right; exact h1

/-- A successful profile lookup returns the payload of a stored entry. -/
theorem profileLookup_mem {st : ServerState} {uid : ℕ} {p : Profile}
    (h : profileLookup st uid = some p) : ∃ e ∈ st.profiles, e.2 = p := by
  unfold profileLookup at h
  cases hf : st.profiles.find? (fun e => e.1 == uid) with
  | none => rw [hf] at h; simp at h
  | some e =>
    rw [hf] at h
    exact ⟨e, List.mem_of_find?_eq_some hf, by simpa using h⟩

/-- `gameMove` never touches the `User` rows. -/
theorem gameMove_users_eq (st : ServerState) (r : MoveRequest) :
    ((gameMove st r).2).users = st.users := by
  unfold gameMove
  split_ifs <;> rfl

/-- C3: a bot-flagged submission never changes any profile (nor any user
row), and every success response it gets carries `quality = null`. -/
theorem bot_move_leaves_profile_unchanged (st : ServerState) (r : MoveRequest)
    (hb : r.isBot = true) :
    ((gameMove st r).2).profiles = st.profiles ∧
    ((gameMove st r).2).users = st.users ∧
    ∀ q d, (gameMove st r).1 = .success q d → q = none := by
  unfold gameMove
  split_ifs with h1 h2 h3 h4 <;>
    refine ⟨rfl, rfl, fun q d h => ?_⟩ <;>
    (cases h <;> rfl)

/-- Witness for C3: a concrete bot submission against a store with one
user and no profile rows leaves the (empty) profile table unchanged. -/
theorem bot_move_leaves_profile_unchanged_witness :
    ((gameMove ⟨[7], [], []⟩ ⟨7, 1, 1, true, 500, true, true, "good"⟩).2).profiles =
      (⟨[7], [], []⟩ : ServerState).profiles :=
  (bot_move_leaves_profile_unchanged ⟨[7], [], []⟩
    ⟨7, 1, 1, true, 500, true, true, "good"⟩ rfl).1

/-- C8: a valid move submission never errors, and a valid human
submission of a fresh `(gameId, ply)` key for a user without a profile
row lazily creates the zeroed profile and aggregates into it. -/
theorem missing_profile_lazily_created (st : ServerState) (r : MoveRequest)
    (hf : r.hasRequiredFields = true) (hu : st.users.contains r.uid = true)
    (hl : r.isLegal = true) :
    (∀ s m, (gameMove st r).1 ≠ .error s m) ∧
    (r.isBot = false →
      st.moves.any (fun m => m.gameId == r.gameId && m.ply == r.ply) = false →
      profileLookup st r.uid = none →
      profileLookup (gameMove st r).2 r.uid =
        some (aggregateMove zeroProfile (some r.oracleQuality) r.thinkTimeMs)) := by
  constructor
  · intro s m
    unfold gameMove
    split_ifs with h1 h2 h3 h4 h5 h6
    · exact absurd h1 (by rw [hf]; simp)
    · exact absurd h2 (by rw [hu]; simp)
    · exact absurd h3 (by rw [hl]; simp)
    · intro h; cases h
    · intro h; cases h
    · intro h; cases h
    · intro h; cases h
  · intro hb h4 hnone
    unfold gameMove
    rw [hf, hu, hl, h4, hb]
    simp only [Bool.not_true, Bool.false_eq_true, Bool.not_false, if_false, if_true,
      Bool.true_eq_false, ite_false, ite_true]
    rw [hnone, Option.getD_none]
    exact profileLookup_set_self (insertMove st r) r.uid _

/-- Witness for C8: submitting a fresh move for user `7`, who has no
profile row, succeeds and creates the zero-based aggregated profile. -/
theorem missing_profile_lazily_created_witness :
    profileLookup
      (gameMove ⟨[7], [], []⟩ ⟨7, 1, 1, false, 1000, true, true, "good"⟩).2 7 =
      some (aggregateMove zeroProfile (some "good") 1000) :=
  (missing_profile_lazily_created ⟨[7], [], []⟩
    ⟨7, 1, 1, false, 1000, true, true, "good"⟩ rfl rfl rfl).2 rfl rfl rfl


/-- A valid submission whose `(gameId, ply)` key is already stored is a
no-op returning `deduped = true` with quality `"ok"` (human) or `null`
(bot). -/
theorem gameMove_dedup (st : ServerState) (r : MoveRequest)
    (hf : r.hasRequiredFields = true) (hu : st.users.contains r.uid = true)
    (hl : r.isLegal = true)
    (hdup : st.moves.any (fun m => m.gameId == r.gameId && m.ply == r.ply) = true) :
    gameMove st r = (.success (if r.isBot then none else some "ok") true, st) := by
  unfold gameMove
  rw [hf, hu, hl, hdup]
  simp

/-- After any successful call, the request key is stored. -/
theorem gameMove_success_key (st : ServerState) (r : MoveRequest)
    (q : Option String) (d : Bool)
    (h : (gameMove st r).1 = .success q d) :
    ((gameMove st r).2).moves.any
      (fun m => m.gameId == r.gameId && m.ply == r.ply) = true := by
  unfold gameMove at h ⊢
  split_ifs at h ⊢ with h1 h2 h3 h4 h5 <;>
    first
      | exact h4
      | (simp [insertMove, List.any_cons]; done)
      | cases h

/-- C2 (amended): once a submission with key `(gameId, ply)` has been
accepted, any further valid submission with the same key is answered
`ok: true, deduped: true` without touching the store (so the profile and
its `moveCount` are unchanged) — but the reported `quality` is the
constant `"ok"` (or `null` for bots), not the quality computed for the
first submission. -/
theorem duplicate_submission_dedup (st : ServerState) (r1 r2 : MoveRequest)
    (hq : ∃ q d, (gameMove st r1).1 = .success q d)
    (hg : r2.gameId = r1.gameId) (hp : r2.ply = r1.ply)
    (hf : r2.hasRequiredFields = true)
    (hu : st.users.contains r2.uid = true)
    (hl : r2.isLegal = true) :
    gameMove (gameMove st r1).2 r2 =
      (.success (if r2.isBot then none else some "ok") true, (gameMove st r1).2) := by
  obtain ⟨q, d, hsucc⟩ := hq
  have hkey := gameMove_success_key st r1 q d hsucc
  have hkey2 : ((gameMove st r1).2).moves.any
      (fun m => m.gameId == r2.gameId && m.ply == r2.ply) = true := by
    rw [hg, hp]; exact hkey
  have hu2 : ((gameMove st r1).2).users.contains r2.uid = true := by
    rw [gameMove_users_eq]; exact hu
  exact gameMove_dedup _ r2 hf hu2 hl hkey2

/-- Witness for C2 (amended): resubmitting the human move `(1, 1)` for
user `7` yields the dedup response and leaves the state untouched. -/
theorem duplicate_submission_dedup_witness :
    gameMove (gameMove ⟨[7], [], []⟩ ⟨7, 1, 1, false, 1000, true, true, "good"⟩).2
        ⟨7, 1, 1, false, 1000, true, true, "good"⟩ =
      (.success (some "ok") true,
        (gameMove ⟨[7], [], []⟩ ⟨7, 1, 1, false, 1000, true, true, "good"⟩).2) :=
  duplicate_submission_dedup ⟨[7], [], []⟩
    ⟨7, 1, 1, false, 1000, true, true, "good"⟩
    ⟨7, 1, 1, false, 1000, true, true, "good"⟩
    ⟨some "good", false, rfl⟩ rfl rfl rfl rfl rfl

/-- C2 counterexample: the first submission of a move judged a blunder
returns `quality = "blunder"`, but resubmitting the same `(gameId, ply)`
returns `quality = "ok"` — not the previously computed result. -/
theorem dedup_quality_counterexample :
    (gameMove ⟨[7], [], []⟩ ⟨7, 1, 1, false, 1000, true, true, "blunder"⟩).1 =
      .success (some "blunder") false ∧
    (gameMove (gameMove ⟨[7], [], []⟩ ⟨7, 1, 1, false, 1000, true, true, "blunder"⟩).2
        ⟨7, 1, 1, false, 1000, true, true, "blunder"⟩).1 =
      .success (some "ok") true ∧
    (some "ok" : Option String) ≠ some "blunder" :=
  ⟨rfl, rfl, by decide⟩


/-- Unfolding one step of `runningAvg` at the end of the sequence. -/
theorem runningAvg_append (l : List ℕ) (t : ℕ) :
    runningAvg (l ++ [t]) =
      ((runningAvg l).1 + 1,
        roundDiv ((runningAvg l).2 * (runningAvg l).1 + t) ((runningAvg l).1 + 1)) := by
  unfold runningAvg
  rw [List.foldl_append]
  rfl

/-- The incremental rounded mean counts correctly and stays within
`n/2` of the exact mean of the first `n` think times (each step
contributes at most the `1/2` rounding error of `Math.round`). -/
theorem runningAvg_spec (ts : List ℕ) :
    (runningAvg ts).1 = ts.length ∧
    (0 < ts.length →
      |((runningAvg ts).2 : ℚ) - (ts.map (fun t => (t : ℚ))).sum / ts.length| ≤
        (ts.length : ℚ) / 2) := by
  induction ts using List.reverseRecOn with
  | nil => exact ⟨rfl, fun h => absurd h (by simp)⟩
  | append_singleton l t ih =>
    obtain ⟨ihn, ihb⟩ := ih
    refine ⟨by rw [runningAvg_append, ihn]; simp, fun _ => ?_⟩
    rw [runningAvg_append, ihn]
    rcases Nat.eq_zero_or_pos l.length with h0 | hpos
    · have hl : l = [] := List.length_eq_zero.mp h0
      subst hl
      have h1 := abs_roundDiv_sub_le ((runningAvg []).2 * (runningAvg []).1 + t) 1
        Nat.one_pos
      simp only [runningAvg, List.foldl_nil] at h1 ⊢
      simp only [Nat.mul_zero, Nat.zero_add] at h1 ⊢
      simpa using h1
    · have hN : (0 : ℚ) < (l.length : ℚ) := by exact_mod_cast hpos
      set n : ℕ := l.length with hn
      set a : ℕ := (runningAvg l).2 with ha
      set S : ℚ := (l.map (fun t => (t : ℚ))).sum with hS
      have hb := ihb hpos
      have h1 : |(roundDiv (a * n + t) (n + 1) : ℚ) -
          ((a * n + t : ℕ) : ℚ) / ((n + 1 : ℕ) : ℚ)| ≤ 1 / 2 :=
        abs_roundDiv_sub_le (a * n + t) (n + 1) (Nat.succ_pos n)
      have hcast : ((a * n + t : ℕ) : ℚ) / ((n + 1 : ℕ) : ℚ) =
          ((a : ℚ) * n + t) / ((n : ℚ) + 1) := by push_cast; ring_nf
      rw [hcast] at h1
      have h2 : ((a : ℚ) * n + t) / ((n : ℚ) + 1) - (S + t) / ((n : ℚ) + 1) =
          ((a : ℚ) - S / n) * ((n : ℚ) / ((n : ℚ) + 1)) := by
        field_simp
      have h3 : |((a : ℚ) * n + t) / ((n : ℚ) + 1) - (S + t) / ((n : ℚ) + 1)| ≤
          (n : ℚ) / 2 := by
        rw [h2, abs_mul, abs_of_nonneg (show (0 : ℚ) ≤ (n : ℚ) / ((n : ℚ) + 1) by positivity)]
        calc |(a : ℚ) - S / n| * ((n : ℚ) / ((n : ℚ) + 1)) ≤ ((n : ℚ) / 2) * 1 := by
              apply mul_le_mul hb ?_ (by positivity) (by positivity)
              rw [div_le_one (by positivity)]
              linarith
          _ = (n : ℚ) / 2 := by ring
      have hgoal : (((l ++ [t]).map (fun t => (t : ℚ))).sum : ℚ) = S + t := by
        rw [hS]; simp
      have hlen : (((l ++ [t]).length : ℕ) : ℚ) = (n : ℚ) + 1 := by
        rw [hn]; push_cast [List.length_append, List.length_singleton]; ring
      rw [hgoal, hlen]
      calc |(roundDiv (a * n + t) (n + 1) : ℚ) - (S + t) / ((n : ℚ) + 1)|
          ≤ |(roundDiv (a * n + t) (n + 1) : ℚ) - ((a : ℚ) * n + t) / ((n : ℚ) + 1)| +
            |((a : ℚ) * n + t) / ((n : ℚ) + 1) - (S + t) / ((n : ℚ) + 1)| :=
            abs_sub_le _ _ _
        _ ≤ 1 / 2 + (n : ℚ) / 2 := add_le_add h1 h3
        _ = ((n : ℚ) + 1) / 2 := by ring


/-- C5: the accepted human move updates the stored profile by
`moveCount + 1`, `blunderCount + (quality == "blunder" ? 1 : 0)` and the
rounded incremental mean (`Math.round` is the floor at `+ 1/2`); the
handler stores exactly this aggregate, and iterating the recurrence
keeps the stored average within the accumulated per-step rounding error
(`1/2` per step) of the true mean of all human think times. -/
theorem move_aggregation_formulas :
    (∀ (prev : Profile) (q : Option String) (t : ℕ),
      (updateProfile prev q t).moveCount = prev.moveCount + 1 ∧
      (updateProfile prev q t).blunderCount =
        prev.blunderCount + (if q = some "blunder" then 1 else 0) ∧
      (updateProfile prev q t).avgThinkTimeMs =
        roundDiv (prev.avgThinkTimeMs * prev.moveCount + t) (prev.moveCount + 1) ∧
      ((updateProfile prev q t).avgThinkTimeMs : ℤ) =
        ⌊((prev.avgThinkTimeMs : ℚ) * prev.moveCount + t) / (prev.moveCount + 1) + 1 / 2⌋) ∧
    (∀ (st : ServerState) (r : MoveRequest),
      r.hasRequiredFields = true → st.users.contains r.uid = true →
      r.isLegal = true → r.isBot = false →
      st.moves.any (fun m => m.gameId == r.gameId && m.ply == r.ply) = false →
      profileLookup (gameMove st r).2 r.uid =
        some (aggregateMove ((profileLookup st r.uid).getD zeroProfile)
          (some r.oracleQuality) r.thinkTimeMs)) ∧
    (∀ ts : List ℕ,
      (runningAvg ts).1 = ts.length ∧
      (0 < ts.length →
        |((runningAvg ts).2 : ℚ) - (ts.map (fun t => (t : ℚ))).sum / ts.length| ≤
          (ts.length : ℚ) / 2)) := by
  refine ⟨fun prev q t => ⟨rfl, ?_, rfl, ?_⟩, fun st r hf hu hl hb hfr => ?_, runningAvg_spec⟩
  · by_cases hq : q = some "blunder" <;> simp [updateProfile, hq]
  · have h := roundDiv_eq_floor (prev.avgThinkTimeMs * prev.moveCount + t)
      (prev.moveCount + 1) (Nat.succ_pos _)
    push_cast at h
    exact h
  · unfold gameMove
    rw [hf, hu, hl, hfr, hb]
    simp only [Bool.not_true, Bool.false_eq_true, Bool.not_false, if_false, if_true,
      Bool.true_eq_false, ite_false, ite_true]
    exact profileLookup_set_self (insertMove st r) r.uid _

/-- Witness for C5: the first accepted human move of user `7` stores the
aggregate built from the lazily-read previous profile. -/
theorem move_aggregation_formulas_witness :
    profileLookup
      (gameMove ⟨[7], [], []⟩ ⟨7, 1, 1, false, 1000, true, true, "good"⟩).2 7 =
      some (aggregateMove ((profileLookup ⟨[7], [], []⟩ 7).getD zeroProfile)
        (some "good") 1000) :=
  move_aggregation_formulas.2.1 ⟨[7], [], []⟩
    ⟨7, 1, 1, false, 1000, true, true, "good"⟩ rfl rfl rfl rfl rfl

/-! ### The profile invariant (C9) -/

/-- Every stored profile satisfies `0 ≤ blunderCount ≤ moveCount`. -/
def ProfilesOK (st : ServerState) : Prop :=
  ∀ e ∈ st.profiles, 0 ≤ e.2.blunderCount ∧ e.2.blunderCount ≤ e.2.moveCount

theorem aggregateMove_blunder_le (prev : Profile) (q : Option String) (t : ℕ)
    (h : prev.blunderCount ≤ prev.moveCount) :
    (aggregateMove prev q t).blunderCount ≤ (aggregateMove prev q t).moveCount := by
  unfold aggregateMove updateProfile
  dsimp only
  split_ifs <;> omega

theorem getD_profileLookup_ok (st : ServerState) (uid : ℕ) (h : ProfilesOK st) :
    ((profileLookup st uid).getD zeroProfile).blunderCount ≤
      ((profileLookup st uid).getD zeroProfile).moveCount := by
  cases hp : profileLookup st uid with
  | none => exact le_refl 0
  | some p =>
    obtain ⟨e, he, hpe⟩ := profileLookup_mem hp
    rw [Option.getD_some]
    rw [← hpe]
    exact (h e he).2

theorem gameMove_profilesOK (st : ServerState) (r : MoveRequest)
    (h : ProfilesOK st) : ProfilesOK (gameMove st r).2 := by
  unfold gameMove
  split_ifs with h1 h2 h3 h4 h5
  · exact h
  · exact h
  · exact h
  · exact h
  · exact h
  · exact h
  · intro e he
    have he' : e ∈ setProfile st.profiles r.uid
        (aggregateMove ((profileLookup st r.uid).getD zeroProfile)
          (some r.oracleQuality) r.thinkTimeMs) := he
    rcases mem_setProfile he' with rfl | hmem
    · exact ⟨Nat.zero_le _,
        aggregateMove_blunder_le _ _ _ (getD_profileLookup_ok st r.uid h)⟩
    · exact h e hmem

theorem getOrCreateUser_profilesOK (st : ServerState) (uid : ℕ)
    (h : ProfilesOK st) : ProfilesOK (getOrCreateUserState st uid) := by
  intro e he
  unfold getOrCreateUserState at he
  dsimp only at he
  split_ifs at he with h1
  · exact h e he
  · rcases List.mem_cons.mp he with rfl | hm
    · exact ⟨le_refl _, le_refl _⟩
    · exact h e hm

theorem trackHintUsed_profilesOK (st : ServerState) (uid : ℕ)
    (h : ProfilesOK st) : ProfilesOK (trackHintUsed st uid) := by
  have h1 := getOrCreateUser_profilesOK st uid h
  intro e he
  simp only [trackHintUsed] at he
  rcases mem_setProfile he with rfl | hmem
  · refine ⟨Nat.zero_le _, ?_⟩
    dsimp only
    exact getD_profileLookup_ok (getOrCreateUserState st uid) uid h1
  · exact h1 e hmem

/-- C9: from any store whose profiles satisfy the invariant (in
particular from a zeroed profile), every sequence of move submissions
and hint events preserves `0 ≤ blunderCount ≤ moveCount` on every
profile. -/
theorem blunder_le_moveCount_invariant (ops : List ServerOp) (st : ServerState)
    (h : ProfilesOK st) : ProfilesOK (ops.foldl serverStep st) := by
  induction ops generalizing st with
  | nil => exact h
  | cons op rest ih =>
    rw [List.foldl_cons]
    apply ih
    cases op with
    | move r => exact gameMove_profilesOK st r h
    | hintUsed uid => exact trackHintUsed_profilesOK st uid h

/-- Witness for C9: a blunder submission followed by a hint event,
starting from user `7` with a zeroed profile, keeps the invariant. -/
theorem blunder_le_moveCount_invariant_witness :
    ProfilesOK
      ([ServerOp.move ⟨7, 1, 1, false, 1000, true, true, "blunder"⟩,
        ServerOp.hintUsed 7].foldl serverStep ⟨[7], [(7, zeroProfile)], []⟩) :=
  blunder_le_moveCount_invariant _ _ (by
    intro e he
    rw [List.mem_singleton] at he
    subst he
    exact ⟨le_refl _, le_refl _⟩)


/-! ### Adaptive opponent (`frontend/src/pages/Home.jsx`)

The chess.js board and move objects are abstract here: a move is any
`M`, `boardAfter m` is the board read back after applying `m` to the
current position, and `givesCheck m` is `isCheckCompat` on that
position. -/

/-- A chess.js board square: piece type character (`'p'`, `'n'`, `'b'`,
`'r'`, `'q'`, `'k'`) and colour (`true` = white `"w"`). -/
structure BoardPiece where
  pieceType : Char
  isWhite : Bool
deriving Repr, DecidableEq

/-- `PIECE_VALUE[sq.type] ?? 0`. -/
def pieceValue (t : Char) : ℤ :=
  if t = 'p' then 1
  else if t = 'n' then 3
  else if t = 'b' then 3
  else if t = 'r' then 5
  else if t = 'q' then 9
  else if t = 'k' then 0
  else 0

/-- `materialEval(chess)`: sum piece values over the board, positive for
white. -/
def materialEval (board : List (List (Option BoardPiece))) : ℤ :=
  (board.map (fun row =>
    (row.map (fun sq =>
      match sq with
      | none => 0
      | some p => if p.isWhite then pieceValue p.pieceType else -pieceValue p.pieceType)).sum)).sum

/-- The subtraction loop of `pickWeightedRandom`: `r -= it.weight; if
(r <= 0) return it.item`. -/
def pickGo {α : Type} (r : ℚ) : List (α × ℚ) → Option α
  | [] => none
  | (it, w) :: rest => if r - w ≤ 0 then some it else pickGo (r - w) rest

/-- `pickWeightedRandom(items)` with the `Math.random()` draw `rand01 ∈
[0, 1)` made explicit; falls back to the last item when the loop runs
out. -/
def pickWeightedRandom {α : Type} (items : List (α × ℚ)) (rand01 : ℚ) : Option α :=
  let total := (items.map (fun it => it.2)).sum
  match pickGo (rand01 * total) items with
  | some x => some x
  | none => items.getLast?.map (fun it => it.1)

/-- `pickGo` only ever returns a listed item. -/
theorem pickGo_mem {α : Type} {r : ℚ} {items : List (α × ℚ)} {x : α}
    (h : pickGo r items = some x) : x ∈ items.map (fun it => it.1) := by
  induction items generalizing r with
  | nil => cases h
  | cons it rest ih =>
    rw [pickGo] at h
    split_ifs at h with hr
    · injection h with hx
      rw [List.map_cons, hx]
      exact List.mem_cons_self _ _
    · rw [List.map_cons]
      exact List.mem_cons_of_mem _ (ih h)

/-- `pickWeightedRandom` of a non-empty list returns some listed item,
whatever the random draw. -/
theorem pickWeightedRandom_mem {α : Type} (items : List (α × ℚ)) (rand01 : ℚ)
    (hne : items ≠ []) :
    ∃ x, pickWeightedRandom items rand01 = some x ∧ x ∈ items.map (fun it => it.1) := by
  cases hp : pickGo (rand01 * (items.map (fun it => it.2)).sum) items with
  | some x =>
    refine ⟨x, ?_, pickGo_mem hp⟩
    simp only [pickWeightedRandom]
    rw [hp]
  | none =>
    cases hl : items.getLast? with
    | none => exact absurd (List.getLast?_eq_none_iff.mp hl) hne
    | some it =>
      refine ⟨it.1, ?_, ?_⟩
      · simp only [pickWeightedRandom]
        rw [hp, hl]
        rfl
      · have hmem : it ∈ items.getLast? := by rw [hl]; rfl
        obtain ⟨hne2, heq⟩ := List.mem_getLast?_eq_getLast hmem
        rw [heq]
        exact List.mem_map_of_mem _ (List.getLast_mem hne2)

/-- Insertion step of the JS comparator sort: keep going while `le a b`
fails. -/
def insertLe {α : Type} (le : α → α → Bool) (a : α) : List α → List α
  | [] => [a]
  | b :: l => if le a b then a :: b :: l else b :: insertLe le a l

/-- `Array.prototype.sort` with a comparator, modelled as insertion sort
(agrees with the JS sort up to the order of ties). -/
def sortLe {α : Type} (le : α → α → Bool) : List α → List α
  | [] => []
  | a :: l => insertLe le a (sortLe le l)

theorem mem_insertLe {α : Type} (le : α → α → Bool) (a x : α) (l : List α) :
    x ∈ insertLe le a l ↔ x = a ∨ x ∈ l := by
  induction l with
  | nil => simp [insertLe]
  | cons b t ih =>
    rw [insertLe]
    split_ifs with hb
    · simp
    · simp [ih]
      tauto

theorem mem_sortLe {α : Type} (le : α → α → Bool) (x : α) (l : List α) :
    x ∈ sortLe le l ↔ x ∈ l := by
  induction l with
  | nil => simp [sortLe]
  | cons a t ih =>
    rw [sortLe, mem_insertLe, ih]
    simp

theorem pairwise_insertLe {α : Type} (le : α → α → Bool)
    (htot : ∀ x y, le x y = true ∨ le y x = true)
    (htrans : ∀ x y z, le x y = true → le y z = true → le x z = true)
    (a : α) (l : List α) (h : List.Pairwise (fun x y => le x y = true) l) :
    List.Pairwise (fun x y => le x y = true) (insertLe le a l) := by
  induction l with
  | nil => simp [insertLe]
  | cons b t ih =>
    rw [insertLe]
    rcases List.pairwise_cons.mp h with ⟨hb, ht⟩
    split_ifs with hab
    · refine List.pairwise_cons.mpr ⟨?_, h⟩
      intro x hx
      rcases List.mem_cons.mp hx with rfl | hxt
      · exact hab
      · exact htrans a b x hab (hb x hxt)
    · refine List.pairwise_cons.mpr ⟨?_, ih ht⟩
      intro x hx
      rcases (mem_insertLe le a x t).mp hx with rfl | hxt
      · rcases htot x b with hxb | hbx
        · exact absurd hxb hab
        · exact hbx
      · exact hb x hxt

theorem pairwise_sortLe {α : Type} (le : α → α → Bool)
    (htot : ∀ x y, le x y = true ∨ le y x = true)
    (htrans : ∀ x y z, le x y = true → le y z = true → le x z = true)
    (l : List α) :
    List.Pairwise (fun x y => le x y = true) (sortLe le l) := by
  induction l with
  | nil => exact List.Pairwise.nil
  | cons a t ih => exact pairwise_insertLe le htot htrans a _ ih

/-- The head of a comparator-sorted list dominates every element. -/
theorem sortLe_head_le {α : Type} (le : α → α → Bool)
    (htot : ∀ x y, le x y = true ∨ le y x = true)
    (htrans : ∀ x y z, le x y = true → le y z = true → le x z = true)
    (l : List α) (h : α) (hh : (sortLe le l).head? = some h) :
    h ∈ l ∧ ∀ x ∈ l, le h x = true := by
  have hp := pairwise_sortLe le htot htrans l
  cases hs : sortLe le l with
  | nil => rw [hs] at hh; cases hh
  | cons b rest =>
    rw [hs] at hh hp
    injection hh with hb
    subst hb
    rcases List.pairwise_cons.mp hp with ⟨hhead, -⟩
    constructor
    · exact (mem_sortLe le b l).mp (by rw [hs]; exact List.mem_cons_self _ _)
    · intro x hx
      have hx' : x ∈ sortLe le l := (mem_sortLe le x l).mpr hx
      rw [hs] at hx'
      rcases List.mem_cons.mp hx' with rfl | hxr
      · rcases htot x x with hxx | hxx <;> exact hxx
      · exact hhead x hxr


/-- The score of a candidate move from the bot's perspective:
`turn === "w" ? evalAfter : -evalAfter`. -/
def perspectiveScore {M : Type} (turnWhite : Bool)
    (boardAfter : M → List (List (Option BoardPiece))) (m : M) : ℤ :=
  if turnWhite then materialEval (boardAfter m) else -materialEval (boardAfter m)

/-- One element of the `scored` array of `chooseBotMove`. -/
structure Scored (M : Type) where
  m : M
  perspectiveScore : ℤ
  givesCheck : Bool
deriving Repr, DecidableEq

/-- The `{ move, mode, intent }` object returned by `chooseBotMove`. -/
structure BotChoice (M : Type) where
  move : Option M
  mode : String
  intent : String
deriving Repr, DecidableEq

/-- `chooseBotMode()`: `Trap` on two recent blunders, else `Bait` on two
recent fast moves, else `Baseline`. -/
def chooseBotMode (recentFastMoves recentBlunders : ℕ) : String :=
  if 2 ≤ recentBlunders then "trap"
  else if 2 ≤ recentFastMoves then "bait"
  else "baseline"

/-- `chooseBotMove(ch)` from `Home.jsx`.  `legal` is
`ch.moves({ verbose: true })`, `boardAfter m` the board after playing
`m`, `givesCheck m` is `isCheckCompat` on that position, and `rand01`
the `Math.random()` draw used by the weighted pick. -/
def chooseBotMove {M : Type} (legal : List M)
    (boardAfter : M → List (List (Option BoardPiece)))
    (turnWhite : Bool) (givesCheck : M → Bool)
    (recentFastMoves recentBlunders : ℕ) (rand01 : ℚ) : Option (BotChoice M) :=
  if legal.isEmpty then none
  else
    let mode := chooseBotMode recentFastMoves recentBlunders
    let scored := legal.map (fun m =>
      ({ m := m,
         perspectiveScore := perspectiveScore turnWhite boardAfter m,
         givesCheck := givesCheck m } : Scored M))
    if mode = "baseline" then
      let sorted := sortLe (fun a b => decide (b.perspectiveScore ≤ a.perspectiveScore)) scored
      let top := sorted.take 3
      some { move := pickWeightedRandom
               (top.enum.map (fun p => (p.2.m, ((3 - p.1 : ℕ) : ℚ)))) rand01,
             mode := mode, intent := "solid" }
    else if mode = "bait" then
      let sorted := sortLe (fun a b => decide (a.perspectiveScore ≤ b.perspectiveScore)) scored
      let n := max 2 (sorted.length / 5)
      let worst := sorted.take n
      some { move := pickWeightedRandom (worst.map (fun x => (x.m, (1 : ℚ)))) rand01,
             mode := mode, intent := "hang_piece" }
    else
      let checks := scored.filter (fun x => x.givesCheck)
      if !checks.isEmpty then
        some { move := pickWeightedRandom (checks.map (fun x => (x.m, (1 : ℚ)))) rand01,
               mode := mode, intent := "give_check" }
      else
        let sorted := sortLe (fun a b => decide (b.perspectiveScore ≤ a.perspectiveScore)) scored
        some { move := sorted.head?.map (fun x => x.m), mode := mode, intent := "pressure" }

/-- C6: with `recentBlunders ≥ 2` the opponent is in Trap mode; whenever
some legal move gives check, the chosen move is a checking legal move for
every random draw, and when no legal move gives check the chosen move is
a best-scoring legal move by material evaluation. -/
theorem trap_mode_selects_checking_moves {M : Type} (legal : List M)
    (boardAfter : M → List (List (Option BoardPiece))) (turnWhite : Bool)
    (givesCheck : M → Bool) (recentFastMoves recentBlunders : ℕ) (rand01 : ℚ)
    (hbl : 2 ≤ recentBlunders) (c : BotChoice M)
    (hc : chooseBotMove legal boardAfter turnWhite givesCheck recentFastMoves
        recentBlunders rand01 = some c) :
    c.mode = "trap" ∧
    ((∃ m ∈ legal, givesCheck m = true) →
      ∃ m, c.move = some m ∧ m ∈ legal ∧ givesCheck m = true) ∧
    ((∀ m ∈ legal, givesCheck m = false) →
      ∃ m, c.move = some m ∧ m ∈ legal ∧
        ∀ m2 ∈ legal, perspectiveScore turnWhite boardAfter m2 ≤
          perspectiveScore turnWhite boardAfter m) := by
  have hmode : chooseBotMode recentFastMoves recentBlunders = "trap" := by
    unfold chooseBotMode
    rw [if_pos hbl]
  cases hempty : legal.isEmpty with
  | true =>
    unfold chooseBotMove at hc
    rw [hempty] at hc
    simp at hc
  | false =>
    unfold chooseBotMove at hc
    rw [hempty, hmode] at hc
    simp only [Bool.false_eq_true, if_false,
      if_neg (by decide : ¬("trap" : String) = "baseline"),
      if_neg (by decide : ¬("trap" : String) = "bait")] at hc
    set f : M → Scored M := fun m =>
      ({ m := m, perspectiveScore := perspectiveScore turnWhite boardAfter m,
         givesCheck := givesCheck m }) with hf
    cases hck : ((legal.map f).filter (fun x => x.givesCheck)).isEmpty with
    | false =>
      rw [hck] at hc
      simp only [Bool.not_false, if_true] at hc
      injection hc with hcc
      subst hcc
      refine ⟨rfl, ?_, ?_⟩
      · rintro -
        have hne : (legal.map f).filter (fun x => x.givesCheck) ≠ [] := by
          intro h0
          rw [h0] at hck
          simp at hck
        have hne2 : ((legal.map f).filter (fun x => x.givesCheck)).map
            (fun x => (x.m, (1 : ℚ))) ≠ [] := by
          simpa using hne
        obtain ⟨x, hx, hxm⟩ := pickWeightedRandom_mem _ rand01 hne2
        rw [List.map_map] at hxm
        obtain ⟨s, hs, hsx⟩ := List.mem_map.mp hxm
        obtain ⟨hsmem, hspred⟩ := List.mem_filter.mp hs
        obtain ⟨m0, hm0, hfm⟩ := List.mem_map.mp hsmem
        refine ⟨x, hx, ?_, ?_⟩
        · rw [← hsx, ← hfm]
          exact hm0
        · rw [← hsx, ← hfm]
          rw [← hfm] at hspred
          simpa using hspred
      · intro hall
        exfalso
        have hne : (legal.map f).filter (fun x => x.givesCheck) ≠ [] := by
          intro h0
          rw [h0] at hck
          simp at hck
        obtain ⟨s, hs⟩ := List.exists_mem_of_ne_nil _ hne
        obtain ⟨hsmem, hspred⟩ := List.mem_filter.mp hs
        obtain ⟨m0, hm0, hfm⟩ := List.mem_map.mp hsmem
        have hck0 : givesCheck m0 = true := by
          rw [← hfm] at hspred
          simpa using hspred
        rw [hall m0 hm0] at hck0
        cases hck0
    | true =>
      rw [hck] at hc
      simp only [Bool.not_true, Bool.false_eq_true, if_false] at hc
      injection hc with hcc
      subst hcc
      have hchecks : (legal.map f).filter (fun x => x.givesCheck) = [] := by
        simpa using hck
      refine ⟨rfl, ?_, ?_⟩
      · rintro ⟨m0, hm0, hcheck⟩
        exfalso
        have : f m0 ∈ (legal.map f).filter (fun x => x.givesCheck) :=
          List.mem_filter.mpr ⟨List.mem_map_of_mem f hm0, by simpa using hcheck⟩
        rw [hchecks] at this
        cases this
      · rintro -
        have hlegalne : legal ≠ [] := by
          intro h0
          rw [h0] at hempty
          cases hempty
        obtain ⟨m0, hm0⟩ := List.exists_mem_of_ne_nil legal hlegalne
        have htot : ∀ x y : Scored M,
            decide (y.perspectiveScore ≤ x.perspectiveScore) = true ∨
            decide (x.perspectiveScore ≤ y.perspectiveScore) = true := by
          intro x y
          rcases le_total y.perspectiveScore x.perspectiveScore with h | h
          · exact Or.inl (decide_eq_true h)
          · exact Or.inr (decide_eq_true h)
        have htrans : ∀ x y z : Scored M,
            decide (y.perspectiveScore ≤ x.perspectiveScore) = true →
            decide (z.perspectiveScore ≤ y.perspectiveScore) = true →
            decide (z.perspectiveScore ≤ x.perspectiveScore) = true := by
          intro x y z hxy hyz
          exact decide_eq_true (le_trans (of_decide_eq_true hyz) (of_decide_eq_true hxy))
        cases hs : sortLe (fun a b : Scored M =>
            decide (b.perspectiveScore ≤ a.perspectiveScore)) (legal.map f) with
        | nil =>
          exfalso
          have hmem := (mem_sortLe (fun a b : Scored M =>
              decide (b.perspectiveScore ≤ a.perspectiveScore)) (f m0)
            (legal.map f)).mpr (List.mem_map_of_mem f hm0)
          rw [hs] at hmem
          cases hmem
        | cons b rest =>
          have hhd : (sortLe (fun a b : Scored M =>
              decide (b.perspectiveScore ≤ a.perspectiveScore)) (legal.map f)).head? =
              some b := by
            rw [hs]
            rfl
          obtain ⟨hbmem, hble⟩ := sortLe_head_le _ htot htrans (legal.map f) b hhd
          obtain ⟨m1, hm1, hfm1⟩ := List.mem_map.mp hbmem
          refine ⟨b.m, ?_, ?_, ?_⟩
          · rfl
          · rw [← hfm1]
            exact hm1
          · intro m2 hm2
            have h2 := hble (f m2) (List.mem_map_of_mem f hm2)
            have h3 := of_decide_eq_true h2
            rw [← hfm1] at h3 ⊢
            exact h3


/-- Witness for C6: two legal moves of which only move `1` gives check;
in Trap mode (`recentBlunders = 2`) the engine picks move `1` for the
draw `0`. -/
theorem trap_mode_selects_checking_moves_witness :
    ∃ m, (({ move := some 1, mode := "trap", intent := "give_check" } :
        BotChoice ℕ)).move = some m ∧ m ∈ [0, 1] ∧ (fun k => k == 1) m = true :=
  (trap_mode_selects_checking_moves [0, 1] (fun _ => []) true (fun k => k == 1)
      0 2 0 (by norm_num) ⟨some 1, "trap", "give_check"⟩
      (by
        norm_num [chooseBotMove, chooseBotMode, pickWeightedRandom, pickGo,
          perspectiveScore, materialEval]
        decide)).2.1
    ⟨1, by decide, by decide⟩

/-! ### Nudge scheduler (`frontend/src/pages/Home.jsx`) -/

def NUDGE_COOLDOWN_MS : ℕ := 20000
def NUDGE_MIN_VISIBLE_MS : ℕ := 4500
def NUDGE_MAX_VISIBLE_MS : ℕ := 10000
def NUDGE_AFTER_MOVE_GRACE_MS : ℕ := 900
def NUDGE_SHOW_PROB : ℚ := 45 / 100

/-- `normalizeSegment(seg)`. -/
def normalizeSegment (seg : String) : String :=
  let s := seg.trim
  if s = "" then "UNKNOWN" else s.toUpper

/-- `pickNudgeMessage({ segment, thinkTimeMs, hoverBurst })`:
segment-specific text first, then the signal-based fallbacks. -/
def pickNudgeMessage (segment : String) (thinkTimeMs hoverBurst : ℕ) : String :=
  let seg := normalizeSegment segment
  if seg = "HESITANT" then
    "Players like you often perform better when they trust their first instinct."
  else if seg = "IMPULSIVE" then
    "Players with your style benefit from pausing before committing."
  else if seg = "REFLECTIVE" ∨ seg = "CAREFUL" then
    "Your calm pace is working — keep scanning checks/captures."
  else if seg = "UNSTABLE" then
    "Consistency tends to create stronger positions over time."
  else if 8 ≤ hoverBurst then
    "Try trusting your first idea — too much exploring can slow you down."
  else if 4200 ≤ thinkTimeMs then
    "Take a second — then commit. Overthinking can cost you momentum."
  else if thinkTimeMs ≤ 900 then
    "Quick moves are risky — a brief pause can boost accuracy."
  else "Take a second. Then commit."

/-- A visible nudge (the object passed to `setNudge`). -/
structure Nudge where
  msg : String
  reason : String
  shownAt : ℕ
  segmentAtShow : String
deriving Repr, DecidableEq

/-- Per-session nudge state: `lastNudgeAtRef` (initially `0`) and the
currently visible nudge (`null` when hidden). -/
structure NudgeState where
  lastNudgeAt : ℕ
  nudge : Option Nudge
deriving Repr, DecidableEq

/-- One evaluation of the nudge trigger after a committed human move:
the wall clock `now`, the observed think time and hover burst, the
profile move count (`profileStats?.moves ?? 0`), the admin toggle, the
current segment, and the `Math.random()` draw. -/
structure TriggerEval where
  now : ℕ
  thinkTimeMs : ℕ
  hoverBurst : ℕ
  moves : ℕ
  nudgeEnabled : Bool
  segment : String
  rand01 : ℚ
deriving Repr

/-- `showNudge({ msg, reason })`: blocked inside the cooldown window,
otherwise records `lastNudgeAt = now` and makes the nudge visible. -/
def showNudge (st : NudgeState) (now : ℕ) (msg reason segment : String) :
    NudgeState :=
  if now - st.lastNudgeAt < NUDGE_COOLDOWN_MS then st
  else
    { lastNudgeAt := now,
      nudge := some { msg := msg, reason := reason, shownAt := now,
                      segmentAtShow := segment } }

/-- The candidate reason of `maybeShowNudge`, checked in order:
`hoverBurst`, then `tooSlow`, then `tooFast`. -/
def nudgeReason (e : TriggerEval) : Option String :=
  if 8 ≤ e.hoverBurst then some "hoverBurst"
  else if 4200 ≤ e.thinkTimeMs then some "tooSlow"
  else if e.thinkTimeMs ≤ 900 then some "tooFast"
  else none

/-- `maybeShowNudge({ thinkTimeMs, hoverBurst })`: warming-up guard
(`moves < 6`), admin toggle, already-visible guard, reason selection,
probability gate (`Math.random() > 0.45` aborts), then `showNudge`. -/
def maybeShowNudge (st : NudgeState) (e : TriggerEval) : NudgeState :=
  if e.moves < 6 then st
  else if !e.nudgeEnabled then st
  else if st.nudge.isSome then st
  else
    match nudgeReason e with
    | none => st
    | some reason =>
      if NUDGE_SHOW_PROB < e.rand01 then st
      else
        showNudge st e.now (pickNudgeMessage e.segment e.thinkTimeMs e.hoverBurst)
          reason e.segment

/-- A scheduler-relevant session event: a trigger evaluation after a
human move, or one of the hide timers (`NUDGE_MAX_VISIBLE_MS` auto-hide
or the post-move soft hide) firing. -/
inductive NudgeEvent where
  | trigger (e : TriggerEval)
  | hide
deriving Repr

def nudgeStep (st : NudgeState) (ev : NudgeEvent) : NudgeState :=
  match ev with
  | .trigger e => maybeShowNudge st e
  | .hide => { st with nudge := none }

/-- The timestamps at which nudges are shown along an event sequence (a
show is exactly a change of `lastNudgeAt`, which `showNudge` sets to the
show time). -/
def nudgeShows (st : NudgeState) : List NudgeEvent → List ℕ
  | [] => []
  | ev :: rest =>
    if (nudgeStep st ev).lastNudgeAt ≠ st.lastNudgeAt then
      (nudgeStep st ev).lastNudgeAt :: nudgeShows (nudgeStep st ev) rest
    else nudgeShows (nudgeStep st ev) rest

theorem showNudge_lastNudgeAt (st : NudgeState) (now : ℕ)
    (msg reason segment : String) :
    (showNudge st now msg reason segment).lastNudgeAt = st.lastNudgeAt ∨
    (st.lastNudgeAt + NUDGE_COOLDOWN_MS ≤ now ∧
      (showNudge st now msg reason segment).lastNudgeAt = now) := by
  unfold showNudge
  split_ifs with h
  · exact Or.inl rfl
  · refine Or.inr ⟨?_, rfl⟩
    unfold NUDGE_COOLDOWN_MS at h ⊢
    omega

theorem nudgeStep_lastNudgeAt (st : NudgeState) (ev : NudgeEvent) :
    (nudgeStep st ev).lastNudgeAt = st.lastNudgeAt ∨
    (st.lastNudgeAt + NUDGE_COOLDOWN_MS ≤ (nudgeStep st ev).lastNudgeAt) := by
  cases ev with
  | hide => exact Or.inl rfl
  | trigger e =>
    show (maybeShowNudge st e).lastNudgeAt = st.lastNudgeAt ∨
      st.lastNudgeAt + NUDGE_COOLDOWN_MS ≤ (maybeShowNudge st e).lastNudgeAt
    unfold maybeShowNudge
    cases hr : nudgeReason e with
    | none => split_ifs <;> exact Or.inl rfl
    | some reason =>
      split_ifs with h1 h2 h3 h4
      · exact Or.inl rfl
      · exact Or.inl rfl
      · exact Or.inl rfl
      · exact Or.inl rfl
      · rcases showNudge_lastNudgeAt st e.now
          (pickNudgeMessage e.segment e.thinkTimeMs e.hoverBurst) reason e.segment
          with h | ⟨hle, heq⟩
        · exact Or.inl h
        · right
          rw [heq]
          exact hle

theorem nudgeShows_lower_bound (evs : List NudgeEvent) (st : NudgeState) :
    ∀ x ∈ nudgeShows st evs, st.lastNudgeAt + NUDGE_COOLDOWN_MS ≤ x := by
  induction evs generalizing st with
  | nil => intro x hx; cases hx
  | cons ev rest ih =>
    intro x hx
    rw [nudgeShows] at hx
    by_cases hch : (nudgeStep st ev).lastNudgeAt ≠ st.lastNudgeAt
    · rw [if_pos hch] at hx
      rcases nudgeStep_lastNudgeAt st ev with heq | hle
      · exact absurd heq hch
      · rcases List.mem_cons.mp hx with rfl | hxr
        · exact hle
        · have hrest := ih (nudgeStep st ev) x hxr
          exact le_trans hle (le_trans (Nat.le_add_right _ _) hrest)
    · rw [if_neg hch] at hx
      have heq := not_not.mp hch
      have hrest := ih (nudgeStep st ev) x hx
      rw [heq] at hrest
      exact hrest

/-- C7: along any sequence of trigger evaluations and hide events, from
any session state, any two nudge show times are at least
`NUDGE_COOLDOWN_MS` (20s) apart — however many qualifying triggers fall
inside the window. -/
theorem nudge_cooldown_separation (evs : List NudgeEvent) (st : NudgeState) :
    List.Pairwise (fun a b => a + NUDGE_COOLDOWN_MS ≤ b) (nudgeShows st evs) := by
  induction evs generalizing st with
  | nil => exact List.Pairwise.nil
  | cons ev rest ih =>
    rw [nudgeShows]
    by_cases hch : (nudgeStep st ev).lastNudgeAt ≠ st.lastNudgeAt
    · rw [if_pos hch]
      exact List.pairwise_cons.mpr
        ⟨fun x hx => nudgeShows_lower_bound rest (nudgeStep st ev) x hx, ih _⟩
    · rw [if_neg hch]
      exact ih _

end ChessMirror
